import Mathlib

/-!
# Verification of the Fluidkeys local database and policy classifier

A shallow embedding of `src/database/database.go` (the durable store) together
with models of the action-timestamp store and the key-health classifier, and
proofs of the specification's claims about them.

Conventions of the embedding:
* Go slices become `List`, `time.Time` becomes `Int` (abstract instants; for the
  classifier the unit is whole days), `[20]byte` fingerprints and UUIDs become
  single-field structures over `Nat` with decidable equality.
* The backing JSON file is modelled as `FileContent`: the two lists the
  `Message` struct names, plus the assoc-list `unknownFields` of JSON object
  members that `Message` does not name (Go's `encoding/json` silently drops
  these when unmarshalling into `Message`, and `saveToFile` writes only the
  struct's fields).
* The on-disk state is `DiskFile`: `missing` (the file does not exist),
  `corrupt` (unreadable or invalid JSON: the I/O error paths of the Go code),
  or `json f` for a well-formed file `f`.
* Fallible Go functions `(T, error)` become `Except String T`.
-/

namespace Fluidkeys

/-- Go type `fpr.Fingerprint` from github.com/fluidkeys/fluidkeys/fingerprint:
a 20-byte value; modelled as an abstract identifier with decidable equality. -/
structure Fingerprint where
  data : Nat
deriving DecidableEq, Repr

/-- Go type `uuid.UUID` from github.com/gofrs/uuid, modelled abstractly. -/
structure UUID where
  data : Nat
deriving DecidableEq, Repr

/-- Go struct `KeyImportedIntoGnuPGMessage` (database.go): a key the user has imported
into GnuPG from Fluidkeys. -/
structure KeyImportedIntoGnuPGMessage where
  Fingerprint : Fingerprint
deriving DecidableEq, Repr

/-- Go struct `RequestToJoinTeamMessage` (database.go): a recorded request to join a
team. -/
structure RequestToJoinTeamMessage where
  TeamUUID : UUID
  Fingerprint : Fingerprint
  RequestedAt : Int
deriving DecidableEq, Repr

/-- Go struct `Message` (database.go): the structure the database file takes. -/
structure Message where
  KeysImportedIntoGnuPG : List KeyImportedIntoGnuPGMessage
  RequestsToJoinTeams : List RequestToJoinTeamMessage
deriving DecidableEq, Repr

/-- Go struct `team.RequestToJoinTeam`, as returned by `GetRequestsToJoinTeams`. -/
structure RequestToJoinTeam where
  TeamUUID : UUID
  Fingerprint : Fingerprint
  RequestedAt : Int
deriving DecidableEq, Repr

/-- The loop body of `deduplicateKeyImportedIntoGnuPGMessages` (database.go):
walks the slice, keeping each message not in the `alreadySeen` map and adding
it to the map. -/
def dedupLoop (alreadySeen : List KeyImportedIntoGnuPGMessage) :
    List KeyImportedIntoGnuPGMessage → List KeyImportedIntoGnuPGMessage
  | [] => []
  | v :: rest =>
    if v ∈ alreadySeen then
      dedupLoop alreadySeen rest
    else
      v :: dedupLoop (v :: alreadySeen) rest

/-- Go function `deduplicateKeyImportedIntoGnuPGMessages` (database.go): drops duplicate
imported-key messages, keeping the first occurrence of each. -/
def deduplicateKeyImportedIntoGnuPGMessages
    (slice : List KeyImportedIntoGnuPGMessage) : List KeyImportedIntoGnuPGMessage :=
  dedupLoop [] slice

/-- The JSON backing file: the two object members `Message` names, plus any
members of the JSON object the `Message` struct does not name (Go's
`json.Unmarshal` into `Message` drops those; `saveToFile` never writes them). -/
structure FileContent where
  KeysImportedIntoGnuPG : List KeyImportedIntoGnuPGMessage
  RequestsToJoinTeams : List RequestToJoinTeamMessage
  unknownFields : List (String × String)
deriving DecidableEq, Repr

/-- The state of the backing file on disk. -/
inductive DiskFile where
  | missing
  | corrupt
  | json (f : FileContent)
deriving DecidableEq, Repr

/-- Go method `loadFromFile` (database.go): a missing file yields the zero `Message`
with no error; an unreadable or unparseable file yields an error; otherwise
the unmarshalled `Message` with its imported-key list deduplicated. Members of
the JSON object beyond the struct's fields are dropped by `json.Unmarshal`. -/
def loadFromFile : DiskFile → Except String Message
  | .missing => .ok ⟨[], []⟩
  | .corrupt => .error "error loading json"
  | .json f =>
      .ok ⟨deduplicateKeyImportedIntoGnuPGMessages f.KeysImportedIntoGnuPG,
           f.RequestsToJoinTeams⟩

/-- Go method `saveToFile` (database.go): rewrites the whole file as the JSON encoding
of `message` — only the struct's own fields appear in the output. -/
def saveToFile (message : Message) : DiskFile :=
  .json ⟨message.KeysImportedIntoGnuPG, message.RequestsToJoinTeams, []⟩

/-- Go method `RecordFingerprintImportedIntoGnuPG` (database.go): load, append the new
fingerprint to the imported list, deduplicate, save. -/
def RecordFingerprintImportedIntoGnuPG (newFingerprint : Fingerprint)
    (d : DiskFile) : Except String DiskFile := do
  let message ← loadFromFile d
  let existingKeysImported := message.KeysImportedIntoGnuPG
  let keys := deduplicateKeyImportedIntoGnuPGMessages
    (existingKeysImported ++ [⟨newFingerprint⟩])
  return saveToFile ⟨keys, message.RequestsToJoinTeams⟩

/-- Go method `RecordRequestToJoinTeam` (database.go): load, append the new request to
the requests list, save.  No deduplication is applied to the requests list. -/
def RecordRequestToJoinTeam (teamUUID : UUID) (fingerprint : Fingerprint)
    (now : Int) (d : DiskFile) : Except String DiskFile := do
  let message ← loadFromFile d
  let newRequest : RequestToJoinTeamMessage := ⟨teamUUID, fingerprint, now⟩
  return saveToFile ⟨message.KeysImportedIntoGnuPG,
                     message.RequestsToJoinTeams ++ [newRequest]⟩

/-- Go method `GetFingerprintsImportedIntoGnuPG` (database.go): load and project the
fingerprints of the imported-key messages. -/
def GetFingerprintsImportedIntoGnuPG (d : DiskFile) :
    Except String (List Fingerprint) := do
  let message ← loadFromFile d
  return message.KeysImportedIntoGnuPG.map (·.Fingerprint)

/-- Go method `GetRequestsToJoinTeams` (database.go): load and convert each stored
request message into a `team.RequestToJoinTeam`, in stored order. -/
def GetRequestsToJoinTeams (d : DiskFile) :
    Except String (List RequestToJoinTeam) := do
  let message ← loadFromFile d
  return message.RequestsToJoinTeams.map
    (fun msg => ⟨msg.TeamUUID, msg.Fingerprint, msg.RequestedAt⟩)

/-- The loop of `DeleteRequestToJoinTeam` (database.go): rebuild the requests
list, skipping every request matching both the team UUID and the
fingerprint. -/
def deleteLoop (teamUUID : UUID) (fingerprint : Fingerprint) :
    List RequestToJoinTeamMessage → List RequestToJoinTeamMessage
  | [] => []
  | req :: rest =>
    if req.TeamUUID = teamUUID ∧ req.Fingerprint = fingerprint then
      deleteLoop teamUUID fingerprint rest
    else
      req :: deleteLoop teamUUID fingerprint rest

/-- Go method `DeleteRequestToJoinTeam` (database.go): load, drop all requests matching
the given team UUID and fingerprint, save. -/
def DeleteRequestToJoinTeam (teamUUID : UUID) (fingerprint : Fingerprint)
    (d : DiskFile) : Except String DiskFile := do
  let message ← loadFromFile d
  let newRequests := deleteLoop teamUUID fingerprint message.RequestsToJoinTeams
  return saveToFile ⟨message.KeysImportedIntoGnuPG, newRequests⟩

/-- The specification's deduplication rule, stated in its own words, to be
compared with `deduplicateKeyImportedIntoGnuPGMessages`: "two ImportRecords
are equal if their fingerprints are equal; equal records collapse to one,
preserving first-seen order" — keep each record the first time it appears and
delete every later equal record. -/
def dedupFirstSeenSpec : List KeyImportedIntoGnuPGMessage →
    List KeyImportedIntoGnuPGMessage
  | [] => []
  | x :: rest => x :: dedupFirstSeenSpec (rest.filter (· ≠ x))
termination_by xs => xs.length
decreasing_by
  simp only [List.length_cons]
  exact Nat.lt_succ_of_le (List.length_filter_le _ _)

/-! ## Action timestamps (`RecordLast` / `GetLast` / `IsOlderThan`)

The event-times store is exercised by `TestEventTimes` in
`src/unnamed/part_001` but its implementation is not among the source files,
so it is modelled from the spec (§4.1 Durable Store). -/

/-- Modelled from the spec: the `ActionTimestamp` records, "keyed by
`(verb, identity)` … Value is the instant the action last completed. Exactly
one timestamp per key; a later write overwrites the prior value."  The
implementation (`RecordLast`/`GetLast`/`IsOlderThan`) is not under `src/`;
only its tests are.  Identities are represented by the stable key string the
store derives from them (a fingerprint's canonical form, or the identity's
canonical display string). -/
abbrev EventTimes := List ((String × String) × Int)

/-- Modelled from the spec: `recordAction(verb, identity, when)` — last-write
wins: the new instant overwrites any prior record for the same
`(verb, identity)` key. -/
def recordAction (verb identityKey : String) (when' : Int)
    (times : List ((String × String) × Int)) : List ((String × String) × Int) :=
  ((verb, identityKey), when') ::
    times.filter (fun entry => entry.1 ≠ (verb, identityKey))

/-- Modelled from the spec: `getLastAction(verb, identity) -> instant | absent`. -/
def getLastAction (verb identityKey : String)
    (times : List ((String × String) × Int)) : Option Int :=
  (times.find? (fun entry => entry.1 = (verb, identityKey))).map (·.2)

/-- Modelled from the spec: "`isOlderThan(verb, identity, maxAge, now)`
returns true when no record exists yet (treat never-done as infinitely old)
and returns `now - getLastAction >= maxAge` otherwise." -/
def isOlderThan (verb identityKey : String) (maxAge now : Int)
    (times : List ((String × String) × Int)) : Bool :=
  match getLastAction verb identityKey times with
  | none => true
  | some last => decide (maxAge ≤ now - last)

/-! ## Policy classifier

The health-state classifier (the `status` package) is consumed by
`FormatKeyWarningLines` in `src/unnamed/part_005` but its implementation is
not among the source files, so it is modelled from the spec (§4.2). -/

/-- The health states of §4.2, with the day counts each state carries. -/
inductive HealthState where
  | NoExpiry
  | LongExpiry
  | DueForRotation
  | OverdueForRotation (daysUntilExpiry : Int)
  | Expired (daysSinceExpiry : Int)
  | Healthy
deriving DecidableEq, Repr

/-- The policy thresholds of §4.2, "configuration constants, not hard-coded
magic": the urgent window, the early-warning window, the maximum acceptable
validity and the rotation cadence, all in whole days. -/
structure PolicyConfig where
  urgentWindowDays : Int
  earlyWindowDays : Int
  maxValidityDays : Int
  rotationCadenceDays : Int
deriving DecidableEq, Repr

/-- Modelled from the spec: step 4 of §4.2, "the time since `lastRotatedAt`
exceeds the rotation cadence"; a key never rotated has exceeded the cadence
("maintenance has not run within the expected cadence"). -/
def cadenceExceeded (cfg : PolicyConfig) (lastRotatedAt : Option Int)
    (now : Int) : Bool :=
  match lastRotatedAt with
  | none => true
  | some rotatedAt => decide (cfg.rotationCadenceDays < now - rotatedAt)

/-- Modelled from the spec: `classify(expiry?, lastRotatedAt?, now)` of §4.2;
the `status` package's classifier is not under `src/`.  Instants are whole
days, so `daysUntilExpiry` is `expiry - now` and `-daysUntilExpiry` is
written `now - expiry`.  Per the state definitions, `Expired{daysSinceExpiry}`
covers every expiry instant not after `now`, with `daysSinceExpiry = 0` on
the day of expiry; then the urgent window, the early-warning window or an
exceeded rotation cadence, the maximum validity check, and otherwise
healthy. -/
def classify (cfg : PolicyConfig) (expiry lastRotatedAt : Option Int)
    (now : Int) : HealthState :=
  match expiry with
  | none => .NoExpiry
  | some e =>
    if e - now ≤ 0 then
      .Expired (now - e)
    else if e - now ≤ cfg.urgentWindowDays then
      .OverdueForRotation (e - now)
    else if decide (e - now ≤ cfg.earlyWindowDays)
        || cadenceExceeded cfg lastRotatedAt now then
      .DueForRotation
    else if cfg.maxValidityDays < e - now then
      .LongExpiry
    else
      .Healthy

/-! ## Lemmas about the deduplication loop -/

theorem mem_dedupLoop {x : KeyImportedIntoGnuPGMessage}
    (seen xs : List KeyImportedIntoGnuPGMessage) :
    x ∈ dedupLoop seen xs ↔ x ∈ xs ∧ x ∉ seen := by
  induction xs generalizing seen with
  | nil => simp [dedupLoop]
  | cons v rest ih =>
    simp only [dedupLoop]
    by_cases hv : v ∈ seen
    · rw [if_pos hv, ih]
      constructor
      · rintro ⟨hx, hns⟩
        exact ⟨List.mem_cons_of_mem _ hx, hns⟩
      · rintro ⟨hx, hns⟩
        rcases List.mem_cons.mp hx with h | h
        · exact absurd (h ▸ hv) hns
        · exact ⟨h, hns⟩
    · rw [if_neg hv]
      simp only [List.mem_cons, ih, not_or]
      by_cases hxv : x = v
      · subst hxv
        simp [hv]
      · simp [hxv]

theorem nodup_dedupLoop (seen xs : List KeyImportedIntoGnuPGMessage) :
    (dedupLoop seen xs).Nodup := by
  induction xs generalizing seen with
  | nil => simp [dedupLoop]
  | cons v rest ih =>
    simp only [dedupLoop]
    by_cases hv : v ∈ seen
    · rw [if_pos hv]
      exact ih seen
    · rw [if_neg hv]
      refine List.nodup_cons.mpr ⟨?_, ih (v :: seen)⟩
      intro hmem
      exact ((mem_dedupLoop _ _).mp hmem).2 (List.mem_cons_self v seen)

theorem dedupLoop_sublist (seen xs : List KeyImportedIntoGnuPGMessage) :
    List.Sublist (dedupLoop seen xs) xs := by
  induction xs generalizing seen with
  | nil => simp [dedupLoop]
  | cons v rest ih =>
    simp only [dedupLoop]
    by_cases hv : v ∈ seen
    · rw [if_pos hv]
      exact (ih seen).cons v
    · rw [if_neg hv]
      exact (ih (v :: seen)).cons₂ v

theorem dedupLoop_eq_self {seen xs : List KeyImportedIntoGnuPGMessage}
    (hx : ∀ x ∈ xs, x ∉ seen) (hnd : xs.Nodup) :
    dedupLoop seen xs = xs := by
  induction xs generalizing seen with
  | nil => rfl
  | cons v rest ih =>
    have hv : v ∉ seen := hx v (List.mem_cons_self v rest)
    simp only [dedupLoop, if_neg hv]
    congr 1
    refine ih (fun x hxr => ?_) (List.nodup_cons.mp hnd).2
    simp only [List.mem_cons, not_or]
    exact ⟨fun he => (List.nodup_cons.mp hnd).1 (he ▸ hxr),
           hx x (List.mem_cons_of_mem _ hxr)⟩

theorem mem_deduplicate {x : KeyImportedIntoGnuPGMessage}
    (xs : List KeyImportedIntoGnuPGMessage) :
    x ∈ deduplicateKeyImportedIntoGnuPGMessages xs ↔ x ∈ xs := by
  rw [deduplicateKeyImportedIntoGnuPGMessages, mem_dedupLoop]
  simp

theorem nodup_deduplicate (xs : List KeyImportedIntoGnuPGMessage) :
    (deduplicateKeyImportedIntoGnuPGMessages xs).Nodup :=
  nodup_dedupLoop [] xs

theorem deduplicate_idem (xs : List KeyImportedIntoGnuPGMessage) :
    deduplicateKeyImportedIntoGnuPGMessages
      (deduplicateKeyImportedIntoGnuPGMessages xs)
      = deduplicateKeyImportedIntoGnuPGMessages xs :=
  dedupLoop_eq_self (by simp) (nodup_deduplicate xs)

theorem dedupLoop_append_singleton
    (seen xs : List KeyImportedIntoGnuPGMessage)
    (a : KeyImportedIntoGnuPGMessage) :
    dedupLoop seen (xs ++ [a]) =
      if a ∈ xs ∨ a ∈ seen then dedupLoop seen xs
      else dedupLoop seen xs ++ [a] := by
  induction xs generalizing seen with
  | nil =>
    by_cases ha : a ∈ seen
    · simp [dedupLoop, ha]
    · simp [dedupLoop, ha]
  | cons v rest ih =>
    simp only [List.cons_append, dedupLoop, List.append_eq]
    by_cases hv : v ∈ seen
    · rw [if_pos hv, if_pos hv, ih seen]
      by_cases hav : a = v
      · subst hav
        simp [hv]
      · simp only [List.mem_cons, hav, false_or]
    · rw [if_neg hv, if_neg hv, ih (v :: seen)]
      by_cases hcond : a ∈ rest ∨ a ∈ v :: seen
      · rw [if_pos hcond]
        rcases hcond with h | h
        · rw [if_pos (Or.inl (List.mem_cons_of_mem _ h))]
        · rcases List.mem_cons.mp h with h' | h'
          · rw [if_pos (Or.inl (h' ▸ List.mem_cons_self v rest))]
          · rw [if_pos (Or.inr h')]
      · rw [if_neg hcond, if_neg ?_, List.cons_append]
        intro hc
        apply hcond
        rcases hc with h | h
        · rcases List.mem_cons.mp h with h' | h'
          · exact Or.inr (h' ▸ List.mem_cons_self v seen)
          · exact Or.inl h'
        · exact Or.inr (List.mem_cons_of_mem _ h)

theorem deduplicate_append_mem {a : KeyImportedIntoGnuPGMessage}
    {xs : List KeyImportedIntoGnuPGMessage} (h : a ∈ xs) :
    deduplicateKeyImportedIntoGnuPGMessages (xs ++ [a])
      = deduplicateKeyImportedIntoGnuPGMessages xs := by
  rw [deduplicateKeyImportedIntoGnuPGMessages, dedupLoop_append_singleton,
    if_pos (Or.inl h)]
  rfl

theorem deduplicate_append_self {a : KeyImportedIntoGnuPGMessage}
    {xs : List KeyImportedIntoGnuPGMessage} (h : a ∈ xs) :
    deduplicateKeyImportedIntoGnuPGMessages
        (deduplicateKeyImportedIntoGnuPGMessages xs ++ [a])
      = deduplicateKeyImportedIntoGnuPGMessages xs := by
  rw [deduplicate_append_mem ((mem_deduplicate xs).mpr h), deduplicate_idem]

theorem dedupLoop_eq_firstSeen (seen xs : List KeyImportedIntoGnuPGMessage) :
    dedupLoop seen xs
      = dedupFirstSeenSpec (xs.filter (fun x => decide (x ∉ seen))) := by
  induction xs generalizing seen with
  | nil => simp [dedupLoop, dedupFirstSeenSpec]
  | cons v rest ih =>
    by_cases hv : v ∈ seen
    · rw [show dedupLoop seen (v :: rest) = dedupLoop seen rest from by
        simp [dedupLoop, hv]]
      rw [show (v :: rest).filter (fun x => decide (x ∉ seen))
          = rest.filter (fun x => decide (x ∉ seen)) from by simp [hv]]
      exact ih seen
    · rw [show dedupLoop seen (v :: rest) = v :: dedupLoop (v :: seen) rest from by
        simp [dedupLoop, hv]]
      rw [show (v :: rest).filter (fun x => decide (x ∉ seen))
          = v :: rest.filter (fun x => decide (x ∉ seen)) from by simp [hv]]
      rw [dedupFirstSeenSpec, ih (v :: seen)]
      congr 1
      rw [List.filter_filter]
      congr 1
      refine List.filter_congr (fun x _ => ?_)
      by_cases hxv : x = v
      · simp [hxv]
      · by_cases hxs : x ∈ seen <;> simp [hxv, hxs]

theorem deduplicate_eq_firstSeen (xs : List KeyImportedIntoGnuPGMessage) :
    deduplicateKeyImportedIntoGnuPGMessages xs = dedupFirstSeenSpec xs := by
  rw [deduplicateKeyImportedIntoGnuPGMessages, dedupLoop_eq_firstSeen]
  congr 1
  refine (List.filter_eq_self.mpr (fun x _ => ?_))
  simp

/-! ## Lemmas about the delete loop and the store operations -/

theorem deleteLoop_eq_filter (teamUUID : UUID) (fingerprint : Fingerprint)
    (xs : List RequestToJoinTeamMessage) :
    deleteLoop teamUUID fingerprint xs
      = xs.filter
          (fun r => decide ¬(r.TeamUUID = teamUUID ∧ r.Fingerprint = fingerprint)) := by
  induction xs with
  | nil => rfl
  | cons r rest ih =>
    by_cases h : r.TeamUUID = teamUUID ∧ r.Fingerprint = fingerprint
    · rw [show deleteLoop teamUUID fingerprint (r :: rest)
          = deleteLoop teamUUID fingerprint rest from by simp [deleteLoop, h]]
      rw [ih]
      exact (List.filter_cons_of_neg (by simp [h])).symm
    · rw [show deleteLoop teamUUID fingerprint (r :: rest)
          = r :: deleteLoop teamUUID fingerprint rest from by simp [deleteLoop, h]]
      rw [ih]
      exact (List.filter_cons_of_pos (by simp [h])).symm

theorem recordFingerprint_json (fp : Fingerprint) (f : FileContent) :
    RecordFingerprintImportedIntoGnuPG fp (.json f)
      = .ok (.json
          ⟨deduplicateKeyImportedIntoGnuPGMessages
            (deduplicateKeyImportedIntoGnuPGMessages f.KeysImportedIntoGnuPG ++ [⟨fp⟩]),
           f.RequestsToJoinTeams, []⟩) := rfl

theorem recordFingerprint_missing (fp : Fingerprint) :
    RecordFingerprintImportedIntoGnuPG fp .missing
      = .ok (.json ⟨deduplicateKeyImportedIntoGnuPGMessages [⟨fp⟩], [], []⟩) := rfl

theorem recordRequest_json (t : UUID) (fp : Fingerprint) (w : Int)
    (f : FileContent) :
    RecordRequestToJoinTeam t fp w (.json f)
      = .ok (.json
          ⟨deduplicateKeyImportedIntoGnuPGMessages f.KeysImportedIntoGnuPG,
           f.RequestsToJoinTeams ++ [⟨t, fp, w⟩], []⟩) := rfl

theorem deleteRequest_json (t : UUID) (fp : Fingerprint) (f : FileContent) :
    DeleteRequestToJoinTeam t fp (.json f)
      = .ok (.json
          ⟨deduplicateKeyImportedIntoGnuPGMessages f.KeysImportedIntoGnuPG,
           deleteLoop t fp f.RequestsToJoinTeams, []⟩) := rfl

theorem getFingerprints_json (f : FileContent) :
    GetFingerprintsImportedIntoGnuPG (.json f)
      = .ok ((deduplicateKeyImportedIntoGnuPGMessages f.KeysImportedIntoGnuPG).map
          (·.Fingerprint)) := rfl

theorem recordFingerprint_saved (fp : Fingerprint)
    (ys : List KeyImportedIntoGnuPGMessage)
    (R : List RequestToJoinTeamMessage)
    (hmem : (⟨fp⟩ : KeyImportedIntoGnuPGMessage) ∈ ys) :
    RecordFingerprintImportedIntoGnuPG fp
        (.json ⟨deduplicateKeyImportedIntoGnuPGMessages ys, R, []⟩)
      = .ok (.json ⟨deduplicateKeyImportedIntoGnuPGMessages ys, R, []⟩) := by
  rw [recordFingerprint_json]
  simp only
  rw [deduplicate_idem, deduplicate_append_self hmem]

theorem recordFingerprint_twice (fp : Fingerprint) (d : DiskFile) :
    (RecordFingerprintImportedIntoGnuPG fp d).bind
        (RecordFingerprintImportedIntoGnuPG fp)
      = RecordFingerprintImportedIntoGnuPG fp d := by
  cases d with
  | corrupt => rfl
  | missing =>
    rw [recordFingerprint_missing]
    show RecordFingerprintImportedIntoGnuPG fp
        (.json ⟨deduplicateKeyImportedIntoGnuPGMessages [⟨fp⟩], [], []⟩) = _
    rw [recordFingerprint_saved fp [⟨fp⟩] [] (List.mem_singleton.mpr rfl)]
  | json f =>
    rw [recordFingerprint_json]
    show RecordFingerprintImportedIntoGnuPG fp (.json _) = _
    rw [recordFingerprint_saved fp
      (deduplicateKeyImportedIntoGnuPGMessages f.KeysImportedIntoGnuPG ++ [⟨fp⟩])
      f.RequestsToJoinTeams
      (List.mem_append_right _ (List.mem_singleton.mpr rfl))]

theorem getFingerprints_mk (ks : List KeyImportedIntoGnuPGMessage)
    (rs : List RequestToJoinTeamMessage) (us : List (String × String)) :
    GetFingerprintsImportedIntoGnuPG (.json ⟨ks, rs, us⟩)
      = .ok ((deduplicateKeyImportedIntoGnuPGMessages ks).map (·.Fingerprint)) := rfl

/-! ## The claims -/

/-- C8: deduplication of `ImportRecord`s treats two records as equal exactly
when their fingerprints are equal, collapses equal records to one, and
returns the distinct records in first-seen order (the order formalised by
`dedupFirstSeenSpec`, the spec's rule in its own words; the output is also
duplicate-free and a subsequence of the input with the same members). -/
theorem deduplicate_matches_firstSeen_rule
    (xs : List KeyImportedIntoGnuPGMessage) :
    deduplicateKeyImportedIntoGnuPGMessages xs = dedupFirstSeenSpec xs
    ∧ (∀ a b : KeyImportedIntoGnuPGMessage, a = b ↔ a.Fingerprint = b.Fingerprint)
    ∧ (deduplicateKeyImportedIntoGnuPGMessages xs).Nodup
    ∧ List.Sublist (deduplicateKeyImportedIntoGnuPGMessages xs) xs
    ∧ (∀ x, x ∈ deduplicateKeyImportedIntoGnuPGMessages xs ↔ x ∈ xs) := by
  refine ⟨deduplicate_eq_firstSeen xs, ?_, nodup_deduplicate xs,
    dedupLoop_sublist [] xs, fun x => mem_deduplicate xs⟩
  intro a b
  constructor
  · intro h
    rw [h]
  · intro h
    cases a
    cases b
    simpa using h

/-- C3: recording an imported fingerprint twice yields the same
`GetFingerprintsImportedIntoGnuPG` result as recording it once (for every
prior store state), and recording a fingerprint already present in a
duplicate-free stored file leaves the stored state unchanged. -/
theorem recordFingerprintImported_idempotent (fp : Fingerprint) (d : DiskFile) :
    ((RecordFingerprintImportedIntoGnuPG fp d).bind
        (RecordFingerprintImportedIntoGnuPG fp)).bind
        GetFingerprintsImportedIntoGnuPG
      = (RecordFingerprintImportedIntoGnuPG fp d).bind
          GetFingerprintsImportedIntoGnuPG
    ∧ ∀ f₀ : FileContent, d = DiskFile.json f₀ →
        f₀.KeysImportedIntoGnuPG.Nodup →
        KeyImportedIntoGnuPGMessage.mk fp ∈ f₀.KeysImportedIntoGnuPG →
        f₀.unknownFields = [] →
        RecordFingerprintImportedIntoGnuPG fp d = .ok d := by
  constructor
  · rw [recordFingerprint_twice]
  · rintro f₀ rfl hnd hmem hunk
    obtain ⟨ks, rs, us⟩ := f₀
    simp only at hnd hmem
    subst hunk
    have h1 : deduplicateKeyImportedIntoGnuPGMessages ks = ks :=
      dedupLoop_eq_self (by simp) hnd
    rw [← h1]
    exact recordFingerprint_saved fp ks rs hmem

/-- Witness for C3: with fingerprint 10 already the sole record of the file,
recording it again returns the file unchanged. -/
theorem recordFingerprintImported_idempotent_witness :
    RecordFingerprintImportedIntoGnuPG ⟨10⟩ (.json ⟨[⟨⟨10⟩⟩], [], []⟩)
      = .ok (.json ⟨[⟨⟨10⟩⟩], [], []⟩) :=
  (recordFingerprintImported_idempotent ⟨10⟩ (.json ⟨[⟨⟨10⟩⟩], [], []⟩)).2
    ⟨[⟨⟨10⟩⟩], [], []⟩ rfl (by simp) (by simp) rfl

/-- C9: every successful `GetFingerprintsImportedIntoGnuPG` read returns a
duplicate-free fingerprint list, whatever the backing file holds — the load
pass deduplicates the imported-key list. -/
theorem getFingerprintsImported_nodup (d : DiskFile) (fps : List Fingerprint)
    (h : GetFingerprintsImportedIntoGnuPG d = .ok fps) : fps.Nodup := by
  cases d with
  | missing =>
    have hfps : [] = fps := by
      injection h
    rw [← hfps]
    simp
  | corrupt => exact Except.noConfusion h
  | json f =>
    rw [getFingerprints_json] at h
    injection h with h'
    rw [← h']
    refine List.Nodup.map ?_ (nodup_deduplicate _)
    intro a b hab
    cases a
    cases b
    simpa using hab

/-- Witness for C9: a file storing fingerprint 10 twice still reads back a
duplicate-free list. -/
theorem getFingerprintsImported_nodup_witness :
    ([⟨10⟩, ⟨11⟩] : List Fingerprint).Nodup :=
  getFingerprintsImported_nodup
    (.json ⟨[⟨⟨10⟩⟩, ⟨⟨10⟩⟩, ⟨⟨11⟩⟩], [], []⟩) [⟨10⟩, ⟨11⟩] (by rfl)

/-- C10: recording a join-team request leaves the fingerprints returned by
`GetFingerprintsImportedIntoGnuPG` unchanged, for every prior store state. -/
theorem recordRequestToJoinTeam_preserves_imports (t : UUID) (fp : Fingerprint)
    (w : Int) (d : DiskFile) :
    (RecordRequestToJoinTeam t fp w d).bind GetFingerprintsImportedIntoGnuPG
      = GetFingerprintsImportedIntoGnuPG d := by
  cases d with
  | corrupt => rfl
  | missing => rfl
  | json f =>
    show GetFingerprintsImportedIntoGnuPG
        (.json ⟨deduplicateKeyImportedIntoGnuPGMessages f.KeysImportedIntoGnuPG,
                f.RequestsToJoinTeams ++ [⟨t, fp, w⟩], []⟩)
      = GetFingerprintsImportedIntoGnuPG (.json f)
    rw [getFingerprints_mk, getFingerprints_json, deduplicate_idem]

/-- C7: `DeleteRequestToJoinTeam` removes every stored record matching both
the team UUID and the fingerprint and keeps every non-matching record,
preserving their relative order (the kept list is exactly the filter of the
stored list, hence a subsequence of it). -/
theorem deleteRequestToJoinTeam_spec (t : UUID) (fp : Fingerprint)
    (f : FileContent) :
    DeleteRequestToJoinTeam t fp (.json f)
      = .ok (.json
          ⟨deduplicateKeyImportedIntoGnuPGMessages f.KeysImportedIntoGnuPG,
           f.RequestsToJoinTeams.filter
             (fun r => decide ¬(r.TeamUUID = t ∧ r.Fingerprint = fp)), []⟩)
    ∧ (∀ r ∈ f.RequestsToJoinTeams.filter
          (fun r => decide ¬(r.TeamUUID = t ∧ r.Fingerprint = fp)),
        ¬(r.TeamUUID = t ∧ r.Fingerprint = fp))
    ∧ List.Sublist
        (f.RequestsToJoinTeams.filter
          (fun r => decide ¬(r.TeamUUID = t ∧ r.Fingerprint = fp)))
        f.RequestsToJoinTeams
    ∧ (∀ r ∈ f.RequestsToJoinTeams, ¬(r.TeamUUID = t ∧ r.Fingerprint = fp) →
        r ∈ f.RequestsToJoinTeams.filter
          (fun r => decide ¬(r.TeamUUID = t ∧ r.Fingerprint = fp))) := by
  refine ⟨?_, ?_, List.filter_sublist _, ?_⟩
  · rw [deleteRequest_json, deleteLoop_eq_filter]
  · intro r hr
    exact of_decide_eq_true (List.mem_filter.mp hr).2
  · intro r hr hcond
    exact List.mem_filter.mpr ⟨hr, decide_eq_true hcond⟩

/-- Witness for C7: deleting (team 1, fingerprint 10) removes both matching
records and keeps the record for team 2. -/
theorem deleteRequestToJoinTeam_spec_witness :
    DeleteRequestToJoinTeam ⟨1⟩ ⟨10⟩
        (.json ⟨[], [⟨⟨1⟩, ⟨10⟩, 0⟩, ⟨⟨2⟩, ⟨10⟩, 1⟩, ⟨⟨1⟩, ⟨10⟩, 2⟩], []⟩)
      = .ok (.json ⟨[], [⟨⟨2⟩, ⟨10⟩, 1⟩], []⟩) := by
  have h := (deleteRequestToJoinTeam_spec ⟨1⟩ ⟨10⟩
    ⟨[], [⟨⟨1⟩, ⟨10⟩, 0⟩, ⟨⟨2⟩, ⟨10⟩, 1⟩, ⟨⟨1⟩, ⟨10⟩, 2⟩], []⟩).1
  rw [h]
  rfl

/-- C6: a missing backing file is treated as empty state with no error: both
reads return the empty collection, and every mutating operation behaves as on
an existing empty file and succeeds. -/
theorem missingFile_treated_as_empty (fp : Fingerprint) (t : UUID) (w : Int) :
    GetFingerprintsImportedIntoGnuPG .missing = .ok []
    ∧ GetRequestsToJoinTeams .missing = .ok []
    ∧ RecordFingerprintImportedIntoGnuPG fp .missing
        = RecordFingerprintImportedIntoGnuPG fp (.json ⟨[], [], []⟩)
    ∧ RecordRequestToJoinTeam t fp w .missing
        = RecordRequestToJoinTeam t fp w (.json ⟨[], [], []⟩)
    ∧ DeleteRequestToJoinTeam t fp .missing
        = DeleteRequestToJoinTeam t fp (.json ⟨[], [], []⟩)
    ∧ (∃ d₁, RecordFingerprintImportedIntoGnuPG fp .missing = .ok d₁)
    ∧ (∃ d₁, RecordRequestToJoinTeam t fp w .missing = .ok d₁)
    ∧ (∃ d₁, DeleteRequestToJoinTeam t fp .missing = .ok d₁) :=
  ⟨rfl, rfl, rfl, rfl, rfl, ⟨_, rfl⟩, ⟨_, rfl⟩, ⟨_, rfl⟩⟩

/-- C5, counterexample: a store mutation does not preserve a member of the
backing file outside the `Message` schema — recording a join request on a
file carrying an `EventTimes` member rewrites the file without it. -/
theorem recordRequest_drops_unknown_field :
    RecordRequestToJoinTeam ⟨1⟩ ⟨10⟩ 0
        (.json ⟨[], [], [("EventTimes", "x")]⟩)
      = .ok (.json ⟨[], [⟨⟨1⟩, ⟨10⟩, 0⟩], []⟩)
    ∧ ¬ ∃ f₁ : FileContent,
        RecordRequestToJoinTeam ⟨1⟩ ⟨10⟩ 0
            (.json ⟨[], [], [("EventTimes", "x")]⟩)
          = .ok (.json f₁) ∧ ("EventTimes", "x") ∈ f₁.unknownFields := by
  refine ⟨rfl, ?_⟩
  rintro ⟨f₁, h1, h2⟩
  have h3 : Except.ok (ε := String)
      (DiskFile.json ⟨[], [⟨⟨1⟩, ⟨10⟩, 0⟩], []⟩) = .ok (.json f₁) := by
    rw [← h1]
    rfl
  injection h3 with h4
  injection h4 with h5
  rw [← h5] at h2
  simp at h2

/-- C5 (amended): every store mutation rewrites the backing file to exactly
the `Message` schema: the known list the mutation does not target is
preserved (the imported-key list up to the deduplication every load applies,
with the same members), while file members outside the schema are dropped,
not preserved. -/
theorem store_mutations_rewrite_schema_fields (f : FileContent) (t : UUID)
    (fp : Fingerprint) (w : Int) :
    RecordFingerprintImportedIntoGnuPG fp (.json f)
      = .ok (.json ⟨deduplicateKeyImportedIntoGnuPGMessages
            (deduplicateKeyImportedIntoGnuPGMessages f.KeysImportedIntoGnuPG
              ++ [⟨fp⟩]),
          f.RequestsToJoinTeams, []⟩)
    ∧ RecordRequestToJoinTeam t fp w (.json f)
      = .ok (.json
          ⟨deduplicateKeyImportedIntoGnuPGMessages f.KeysImportedIntoGnuPG,
           f.RequestsToJoinTeams ++ [⟨t, fp, w⟩], []⟩)
    ∧ DeleteRequestToJoinTeam t fp (.json f)
      = .ok (.json
          ⟨deduplicateKeyImportedIntoGnuPGMessages f.KeysImportedIntoGnuPG,
           deleteLoop t fp f.RequestsToJoinTeams, []⟩)
    ∧ (∀ k, k ∈ deduplicateKeyImportedIntoGnuPGMessages f.KeysImportedIntoGnuPG
        ↔ k ∈ f.KeysImportedIntoGnuPG) :=
  ⟨recordFingerprint_json fp f, recordRequest_json t fp w f,
   deleteRequest_json t fp f, fun _ => mem_deduplicate _⟩

/-- C1, evaluation at the failing input: recording two join requests for the
same (team, fingerprint) pair at instants 0 and then 1 makes
`GetRequestsToJoinTeams` return both records — two entries sharing the same
(team identity, fingerprint) pair, contrary to the claimed deduplication to
the newest `requested-at`. -/
theorem getRequestsToJoinTeams_returns_duplicate_pair :
    ((RecordRequestToJoinTeam ⟨1⟩ ⟨10⟩ 0 .missing).bind
        (RecordRequestToJoinTeam ⟨1⟩ ⟨10⟩ 1)).bind GetRequestsToJoinTeams
      = .ok [⟨⟨1⟩, ⟨10⟩, 0⟩, ⟨⟨1⟩, ⟨10⟩, 1⟩]
    ∧ ¬ List.Pairwise (fun r₁ r₂ : RequestToJoinTeam =>
          ¬(r₁.TeamUUID = r₂.TeamUUID ∧ r₁.Fingerprint = r₂.Fingerprint))
        [⟨⟨1⟩, ⟨10⟩, 0⟩, ⟨⟨1⟩, ⟨10⟩, 1⟩] := by
  constructor
  · rfl
  · intro h
    exact List.rel_of_pairwise_cons h (List.mem_singleton.mpr rfl) ⟨rfl, rfl⟩

/-- C2: `isOlderThan` returns true when no action-timestamp record exists for
the (verb, identity) key, and otherwise returns true exactly when `now` minus
the recorded instant is at least `maxAge`. -/
theorem isOlderThan_spec (verb identityKey : String) (maxAge now : Int)
    (times : EventTimes) :
    (getLastAction verb identityKey times = none →
      isOlderThan verb identityKey maxAge now times = true)
    ∧ (∀ last, getLastAction verb identityKey times = some last →
        (isOlderThan verb identityKey maxAge now times = true
          ↔ maxAge ≤ now - last)) := by
  constructor
  · intro h
    rw [isOlderThan, h]
  · intro last h
    rw [isOlderThan, h]
    simp

/-- Witness for C2: never-recorded is infinitely old, and a record 50 units
old is not older than 60 units. -/
theorem isOlderThan_spec_witness :
    isOlderThan "fetch" "key" 60 100 [] = true
    ∧ (isOlderThan "fetch" "key" 60 100 [(("fetch", "key"), 50)] = true
        ↔ (60 : Int) ≤ 100 - 50) :=
  ⟨(isOlderThan_spec "fetch" "key" 60 100 []).1 rfl,
   (isOlderThan_spec "fetch" "key" 60 100 [(("fetch", "key"), 50)]).2 50 rfl⟩

/-- C4: classifier boundary cases — expiry at `now` is `Expired 0`, expiry a
day before `now` is `Expired 1`, expiry exactly the urgent-window day count
after `now` is `OverdueForRotation` carrying that day count, and an absent
expiry is `NoExpiry`. -/
theorem classify_boundary (cfg : PolicyConfig) (lastRotatedAt : Option Int)
    (now : Int) (h : 0 < cfg.urgentWindowDays) :
    classify cfg (some now) lastRotatedAt now = .Expired 0
    ∧ classify cfg (some (now - 1)) lastRotatedAt now = .Expired 1
    ∧ classify cfg (some (now + cfg.urgentWindowDays)) lastRotatedAt now
        = .OverdueForRotation cfg.urgentWindowDays
    ∧ classify cfg none lastRotatedAt now = .NoExpiry := by
  refine ⟨?_, ?_, ?_, rfl⟩
  · simp only [classify]
    rw [if_pos (show now - now ≤ 0 by omega)]
    congr 1
    omega
  · simp only [classify]
    rw [if_pos (show now - 1 - now ≤ 0 by omega)]
    congr 1
    omega
  · simp only [classify]
    rw [if_neg (show ¬(now + cfg.urgentWindowDays - now ≤ 0) by omega),
        if_pos (show now + cfg.urgentWindowDays - now ≤ cfg.urgentWindowDays
          by omega)]
    congr 1
    omega

/-- Witness for C4: the boundary cases at `now = 0` for a configuration with
a 14-day urgent window. -/
theorem classify_boundary_witness :
    0 < (⟨14, 30, 366, 60⟩ : PolicyConfig).urgentWindowDays
    ∧ (classify ⟨14, 30, 366, 60⟩ (some 0) none 0 = .Expired 0
      ∧ classify ⟨14, 30, 366, 60⟩ (some (0 - 1)) none 0 = .Expired 1
      ∧ classify ⟨14, 30, 366, 60⟩
          (some (0 + (⟨14, 30, 366, 60⟩ : PolicyConfig).urgentWindowDays)) none 0
          = .OverdueForRotation (⟨14, 30, 366, 60⟩ : PolicyConfig).urgentWindowDays
      ∧ classify ⟨14, 30, 366, 60⟩ none none 0 = .NoExpiry) :=
  ⟨by decide, classify_boundary ⟨14, 30, 366, 60⟩ none 0 (by decide)⟩

end Fluidkeys
